import Mathlib

/-!
Verification of the tox-pipenv plugin (`src/tox_pipenv/plugin.py`).

The plugin is glue code between tox and pipenv.  We shallowly embed the
parts of the plugin that carry its observable behaviour:

* the process environment, restricted to the six variables the plugin
  reads or writes, as a structure of `Option String` fields
  (`none` = the variable is absent from `os.environ`);
* `_init_pipenv_environ` (plugin.py lines 9-16);
* the context manager `wrap_pipenv_environment` (lines 55-69), modelled
  as a function of the environment together with the outcome of the
  wrapped body (`contextlib.contextmanager` with a bare `yield` runs the
  post-`yield` restoration code only when the body returns normally);
* `_clone_pipfile` (lines 40-52), modelled on a two-file file-system
  abstraction (root `Pipfile` content and per-environment `Pipfile`
  content, `none` = the file does not exist);
* the command loop of `tox_runtest` (lines 119-173), with the outcome of
  each `_pcall` supplied by an oracle;
* the output post-processing of `tox_runenvreport` (line 189), i.e.
  Python's `str.split("\n")`.
-/

/-- The process environment restricted to the variables used by
`plugin.py`.  A field is `none` when the variable is absent from
`os.environ`, `some s` when it is present with value `s` (possibly the
empty string). -/
structure Environ where
  PIPENV_ACTIVE : Option String
  PIPENV_IGNORE_VIRTUALENVS : Option String
  PIPENV_YES : Option String
  PIPENV_PIPFILE : Option String
  PIPENV_VIRTUALENV : Option String
  VIRTUAL_ENV : Option String
deriving DecidableEq, Repr

/-- Python truthiness of `os.environ.get(name, None)`: `None` and the
empty string are falsy, every other string is truthy.  This is the test
applied by the `if old_...:` guards on lines 64-68 of plugin.py. -/
def pyTruthy : Option String → Bool
  | none => false
  | some s => s != ""

/-- The three saved values of `wrap_pipenv_environment`
(plugin.py lines 57-59). -/
structure SavedEnv where
  old_pipfile : Option String
  old_pipvenv : Option String
  old_venv : Option String
deriving DecidableEq, Repr

/-- Entering the `wrap_pipenv_environment` scope (plugin.py lines 57-62):
save the prior values of the three variables, then set the overrides.
`os.path.join(str(venv.path))` with a single argument is just
`str(venv.path)`, so both `PIPENV_VIRTUALENV` and `VIRTUAL_ENV` are set
to the venv path. -/
def wrapEnter (venvPath pipfilePath : String) (env : Environ) :
    Environ × SavedEnv :=
  ({ env with
      PIPENV_PIPFILE := some pipfilePath
      PIPENV_VIRTUALENV := some venvPath
      VIRTUAL_ENV := some venvPath },
   ⟨env.PIPENV_PIPFILE, env.PIPENV_VIRTUALENV, env.VIRTUAL_ENV⟩)

/-- The restoration code after the `yield` (plugin.py lines 64-69): each
variable is written back only when its saved value is truthy. -/
def wrapExit (saved : SavedEnv) (env : Environ) : Environ :=
  let env1 := if pyTruthy saved.old_pipfile then
      { env with PIPENV_PIPFILE := saved.old_pipfile } else env
  let env2 := if pyTruthy saved.old_pipvenv then
      { env1 with PIPENV_VIRTUALENV := saved.old_pipvenv } else env1
  if pyTruthy saved.old_venv then
      { env2 with VIRTUAL_ENV := saved.old_venv } else env2

/-- Whether the body wrapped by the context manager returned normally or
raised an exception. -/
inductive BodyResult
  | ok
  | exc
deriving DecidableEq, Repr

/-- The net effect of one `with wrap_pipenv_environment(venv, pipfile):`
scope on the process environment (plugin.py lines 55-69).  The generator
has a bare `yield` with no `try`/`finally`, so when the body raises, the
code after the `yield` never runs and the overrides are left in place. -/
def wrap_pipenv_environment (venvPath pipfilePath : String)
    (env : Environ) (res : BodyResult) : Environ :=
  let (env1, saved) := wrapEnter venvPath pipfilePath env
  match res with
  | .ok => wrapExit saved env1
  | .exc => env1

/-- `_init_pipenv_environ` (plugin.py lines 9-16): unconditionally set
the three global pipenv flags to `"1"`. -/
def init_pipenv_environ (env : Environ) : Environ :=
  { env with
      PIPENV_ACTIVE := some "1"
      PIPENV_IGNORE_VIRTUALENVS := some "1"
      PIPENV_YES := some "1" }

/-- The file-system state touched by `_clone_pipfile`: the content of
the root `Pipfile` and of the per-environment `Pipfile` (`none` = the
file does not exist). -/
structure PipfileFS where
  rootPipfile : Option String
  venvPipfile : Option String
deriving DecidableEq, Repr

/-- `_clone_pipfile` (plugin.py lines 40-52): if the root `Pipfile` does
not exist, `open(..., "a")` creates it empty; then, if the
per-environment `Pipfile` does not exist, the root file is copied onto
it; an existing per-environment `Pipfile` is left untouched. -/
def clone_pipfile (fs : PipfileFS) : PipfileFS :=
  let root : Option String :=
    match fs.rootPipfile with
    | none => some ""
    | some c => some c
  let venvP : Option String :=
    match fs.venvPipfile with
    | none => root
    | some c => some c
  ⟨root, venvP⟩

/-- `envAllAbsent`: a process environment in which every tracked
variable is absent, used as a concrete test state. -/
def envAllAbsent : Environ := ⟨none, none, none, none, none, none⟩

/-- C1 as stated compares, per overridden variable, the environment
after the scope with the environment before it. -/
def restoredC1 (venvPath pipfilePath : String) (env : Environ)
    (res : BodyResult) : Prop :=
  (wrap_pipenv_environment venvPath pipfilePath env res).PIPENV_PIPFILE
      = env.PIPENV_PIPFILE
  ∧ (wrap_pipenv_environment venvPath pipfilePath env res).PIPENV_VIRTUALENV
      = env.PIPENV_VIRTUALENV
  ∧ (wrap_pipenv_environment venvPath pipfilePath env res).VIRTUAL_ENV
      = env.VIRTUAL_ENV

/-- C1 (counterexample): the claim that every overlay scope restores the
three overridden variables fails already on a normal exit when a
variable was absent before the scope: starting from an environment with
all variables absent, after the scope `PIPENV_PIPFILE` holds the
override value instead of being absent again. -/
theorem wrap_pipenv_environment_not_restoring :
    ¬ restoredC1 "/venv" "/venv/Pipfile" envAllAbsent .ok := by
  intro h
  have h1 := h.1
  simp [restoredC1, wrap_pipenv_environment, wrapEnter, wrapExit,
    pyTruthy, envAllAbsent] at h1

/-- C1 (amended): on a normal exit from the overlay scope, a variable
whose prior value was a nonempty string is restored to it, while a
variable that was absent or empty before retains the override value set
inside the scope; when the body raises, no restoration runs at all and
all three variables retain their override values. -/
theorem wrap_pipenv_environment_restore_characterisation
    (venvPath pipfilePath : String) (env : Environ) :
    ((wrap_pipenv_environment venvPath pipfilePath env .ok).PIPENV_PIPFILE
        = if pyTruthy env.PIPENV_PIPFILE then env.PIPENV_PIPFILE
          else some pipfilePath)
    ∧ ((wrap_pipenv_environment venvPath pipfilePath env .ok).PIPENV_VIRTUALENV
        = if pyTruthy env.PIPENV_VIRTUALENV then env.PIPENV_VIRTUALENV
          else some venvPath)
    ∧ ((wrap_pipenv_environment venvPath pipfilePath env .ok).VIRTUAL_ENV
        = if pyTruthy env.VIRTUAL_ENV then env.VIRTUAL_ENV
          else some venvPath)
    ∧ ((wrap_pipenv_environment venvPath pipfilePath env .exc).PIPENV_PIPFILE
        = some pipfilePath)
    ∧ ((wrap_pipenv_environment venvPath pipfilePath env .exc).PIPENV_VIRTUALENV
        = some venvPath)
    ∧ ((wrap_pipenv_environment venvPath pipfilePath env .exc).VIRTUAL_ENV
        = some venvPath) := by
  rcases h1 : pyTruthy env.PIPENV_PIPFILE <;>
    rcases h2 : pyTruthy env.PIPENV_VIRTUALENV <;>
    rcases h3 : pyTruthy env.VIRTUAL_ENV <;>
    simp [wrap_pipenv_environment, wrapEnter, wrapExit, h1, h2, h3]

/-- C10: the restoration step treats an empty-string prior value exactly
like an absent one: if one of the three overridden variables held `""`
before the scope, then after a normal exit it holds the override value
set inside the scope. -/
theorem wrap_pipenv_environment_empty_prior_keeps_override
    (venvPath pipfilePath : String) (env : Environ) :
    (env.PIPENV_PIPFILE = some "" →
      (wrap_pipenv_environment venvPath pipfilePath env .ok).PIPENV_PIPFILE
        = some pipfilePath)
    ∧ (env.PIPENV_VIRTUALENV = some "" →
      (wrap_pipenv_environment venvPath pipfilePath env .ok).PIPENV_VIRTUALENV
        = some venvPath)
    ∧ (env.VIRTUAL_ENV = some "" →
      (wrap_pipenv_environment venvPath pipfilePath env .ok).VIRTUAL_ENV
        = some venvPath) := by
  have h := wrap_pipenv_environment_restore_characterisation
    venvPath pipfilePath env
  refine ⟨fun h1 => ?_, fun h2 => ?_, fun h3 => ?_⟩
  · rw [h.1, h1]; simp [pyTruthy]
  · rw [h.2.1, h2]; simp [pyTruthy]
  · rw [h.2.2.1, h3]; simp [pyTruthy]

/-- C10 witness: with all three variables previously holding the empty
string, after a normal scope exit each holds the override value. -/
theorem wrap_pipenv_environment_empty_prior_keeps_override_app :
    (wrap_pipenv_environment "/v" "/v/Pipfile"
        ⟨none, none, none, some "", some "", some ""⟩ .ok).PIPENV_PIPFILE
      = some "/v/Pipfile"
    ∧ (wrap_pipenv_environment "/v" "/v/Pipfile"
        ⟨none, none, none, some "", some "", some ""⟩ .ok).PIPENV_VIRTUALENV
      = some "/v"
    ∧ (wrap_pipenv_environment "/v" "/v/Pipfile"
        ⟨none, none, none, some "", some "", some ""⟩ .ok).VIRTUAL_ENV
      = some "/v" := by
  have h := wrap_pipenv_environment_empty_prior_keeps_override
    "/v" "/v/Pipfile" ⟨none, none, none, some "", some "", some ""⟩
  exact ⟨h.1 rfl, h.2.1 rfl, h.2.2 rfl⟩

/-- C2: after `_clone_pipfile` runs, a previously absent root `Pipfile`
exists empty; a previously absent per-environment `Pipfile` exists with
content equal to the root content at the time of the copy (i.e. the root
content after the lazy-creation step); and a previously present
per-environment `Pipfile` keeps its content unchanged. -/
theorem clone_pipfile_spec (fs : PipfileFS) :
    (fs.rootPipfile = none → (clone_pipfile fs).rootPipfile = some "")
    ∧ (fs.venvPipfile = none →
        (clone_pipfile fs).venvPipfile = (clone_pipfile fs).rootPipfile)
    ∧ (∀ c, fs.venvPipfile = some c →
        (clone_pipfile fs).venvPipfile = some c) := by
  obtain ⟨r, v⟩ := fs
  refine ⟨fun hr => ?_, fun hv => ?_, fun c hv => ?_⟩ <;>
    simp_all [clone_pipfile]

/-- C2 witness: starting from no root `Pipfile` and no per-environment
`Pipfile`, after cloning the root file is empty and the per-environment
file equals the root file; starting from an existing per-environment
file, its content is kept. -/
theorem clone_pipfile_spec_app :
    (clone_pipfile ⟨none, none⟩).rootPipfile = some ""
    ∧ (clone_pipfile ⟨none, none⟩).venvPipfile
        = (clone_pipfile ⟨none, none⟩).rootPipfile
    ∧ (clone_pipfile ⟨some "root", some "kept"⟩).venvPipfile
        = some "kept" :=
  ⟨(clone_pipfile_spec ⟨none, none⟩).1 rfl,
   (clone_pipfile_spec ⟨none, none⟩).2.1 rfl,
   (clone_pipfile_spec ⟨some "root", some "kept"⟩).2.2 "kept" rfl⟩


/-- Python's `argv[0].startswith("-")` (plugin.py line 137): true iff
the string is non-empty and its first character is `-`. -/
def startsWithDash (s : String) : Bool :=
  match s.data with
  | [] => false
  | c :: _ => c == '-'

/-- Python's `argv[0].lstrip("-")` (plugin.py line 142): remove every
leading `-` character. -/
def lstripDash (s : String) : String :=
  String.mk (s.data.dropWhile (· == '-'))

/-- The first-token handling of `tox_runtest` (plugin.py lines 137-144),
applied to a non-empty command `first :: rest`: if the first token starts
with `-`, the ignore-return-code flag is set; an exact `"-"` token is
deleted (`del argv[0]`), otherwise all leading dashes are stripped from
it (`argv[0].lstrip("-")`).  Returns the flag and the (possibly mutated)
command. -/
def processCommand (first : String) (rest : List String) :
    Bool × List String :=
  if startsWithDash first then
    if first = "-" then (true, rest)
    else (true, lstripDash first :: rest)
  else (false, first :: rest)

/-- Outcome of one `venv._pcall` invocation inside the `tox_runtest`
loop, as observed through the exceptions the loop catches. -/
inductive PcallResult
  | success
  | invocationError
  | keyboardInterrupt
deriving DecidableEq, Repr

/-- How the `tox_runtest` command loop terminated: normally (also after
a `break`), by a propagating `KeyboardInterrupt`, or by a propagating
`IndexError` from `argv[0]` on an empty command. -/
inductive LoopOutcome
  | finished
  | interrupted
  | crashed
deriving DecidableEq, Repr

/-- Observable result of the `tox_runtest` command loop. -/
structure RunResult where
  /-- final content of `venv.envconfig.commands` (the inner command
  lists are mutated in place by lines 140 and 142 of plugin.py) -/
  stored : List (List String)
  /-- the argument vectors passed to `venv._pcall`, in order -/
  calls : List (List String)
  /-- final value of `venv.status` -/
  status : Option String
  /-- how the loop terminated -/
  outcome : LoopOutcome
  /-- number of `report.warning` calls -/
  warnings : Nat
  /-- number of `report.error` calls -/
  errors : Nat
deriving DecidableEq, Repr

/-- The command loop of `tox_runtest` (plugin.py lines 129-171).
`oracle i` is the outcome of the `_pcall` for the command at index `i`;
`ignO`/`ignE` are `venv.envconfig.ignore_outcome` and
`venv.envconfig.ignore_errors`; `exe` is `sys.executable`; `i` is the
index of the first command of `cmds`; `status` is the current
`venv.status`.  An empty command crashes with `IndexError` at
`argv[0]`, which no `except` clause catches. -/
def tox_runtest_loop (oracle : Nat → PcallResult) (ignO ignE : Bool)
    (exe : String) : Nat → List (List String) → Option String → RunResult
  | _, [], status => ⟨[], [], status, .finished, 0, 0⟩
  | i, cmd :: rest, status =>
    match cmd with
    | [] => ⟨cmd :: rest, [], status, .crashed, 0, 0⟩
    | first :: tail =>
      let argv := (processCommand first tail).2
      let call := exe :: "-m" :: "pipenv" :: "run" :: argv
      match oracle i with
      | .success =>
        let r := tox_runtest_loop oracle ignO ignE exe (i + 1) rest status
        ⟨argv :: r.stored, call :: r.calls, r.status, r.outcome,
          r.warnings, r.errors⟩
      | .invocationError =>
        if ignO then
          let r := tox_runtest_loop oracle ignO ignE exe (i + 1) rest
            (some "ignored failed command")
          ⟨argv :: r.stored, call :: r.calls, r.status, r.outcome,
            r.warnings + 1, r.errors⟩
        else if ignE then
          let r := tox_runtest_loop oracle ignO ignE exe (i + 1) rest
            (some "commands failed")
          ⟨argv :: r.stored, call :: r.calls, r.status, r.outcome,
            r.warnings, r.errors + 1⟩
        else
          ⟨argv :: rest, [call], some "commands failed", .finished, 0, 1⟩
      | .keyboardInterrupt =>
        ⟨argv :: rest, [call], some "keyboardinterrupt", .interrupted, 0, 1⟩

/-- C3: for a command with first token `first` and remaining tokens
`rest`: an exact `"-"` first token is removed with the ignore-return-code
flag true; a longer token starting with `-` has all leading dashes
stripped with the flag true; otherwise the flag is false and the command
is passed to the wrapped CLI's run mode unmodified (the `_pcall`
argument vector is the run-mode prefix followed by the unmodified
tokens). -/
theorem processCommand_spec (first : String) (rest : List String)
    (oracle : Nat → PcallResult) (ignO ignE : Bool) (exe : String) :
    (first = "-" → processCommand first rest = (true, rest))
    ∧ (startsWithDash first = true → first ≠ "-" →
        processCommand first rest = (true, lstripDash first :: rest))
    ∧ (startsWithDash first = false →
        processCommand first rest = (false, first :: rest)
        ∧ (tox_runtest_loop oracle ignO ignE exe 0 [first :: rest]
            none).calls.headI.drop 4 = first :: rest) := by
  refine ⟨fun h => ?_, fun h h2 => ?_, fun h => ⟨?_, ?_⟩⟩
  · subst h
    simp [processCommand, startsWithDash]
  · simp [processCommand, h, h2]
  · simp [processCommand, h]
  · rcases ho : oracle 0 <;>
      simp [tox_runtest_loop, processCommand, h, ho] <;>
      rcases ignO <;> rcases ignE <;>
      simp [tox_runtest_loop]

/-- C3 witness: the three branches at concrete commands: `["-", "x"]`
drops the dash token with the flag set, `["--pytest", "x"]` strips the
leading dashes with the flag set, and `["pytest", "-q"]` is passed
unmodified with the flag clear, the run-mode argument vector ending in
the unmodified tokens. -/
theorem processCommand_spec_app :
    processCommand "-" ["x"] = (true, ["x"])
    ∧ processCommand "--pytest" ["x"] = (true, ["pytest", "x"])
    ∧ processCommand "pytest" ["-q"] = (false, ["pytest", "-q"])
    ∧ (tox_runtest_loop (fun _ => .success) false false "py" 0
        [["pytest", "-q"]] none).calls.headI.drop 4 = ["pytest", "-q"] := by
  have h1 := (processCommand_spec "-" ["x"]
    (fun _ => .success) false false "py").1 rfl
  have h2 := (processCommand_spec "--pytest" ["x"]
    (fun _ => .success) false false "py").2.1 (by decide) (by decide)
  have h3 := (processCommand_spec "pytest" ["-q"]
    (fun _ => .success) false false "py").2.2 (by decide)
  refine ⟨h1, ?_, h3.1, h3.2⟩
  rw [h2]
  decide

/-- The in-place mutation that the first-token handling applies to one
stored command (plugin.py lines 137-144). -/
def procList : List String → List String
  | [] => []
  | f :: t => (processCommand f t).2

/-- Helper: when every `_pcall` in range succeeds and every command is
non-empty, the loop runs every command, leaves the status alone, logs
nothing, and stores the dash-mutated commands. -/
theorem loop_all_success (oracle : Nat → PcallResult) (ignO ignE : Bool)
    (exe : String) :
    ∀ (cmds : List (List String)) (i : Nat) (st : Option String),
    (∀ c ∈ cmds, c ≠ []) →
    (∀ k, k < cmds.length → oracle (i + k) = .success) →
    tox_runtest_loop oracle ignO ignE exe i cmds st
      = ⟨cmds.map procList,
         cmds.map (fun c => exe :: "-m" :: "pipenv" :: "run" :: procList c),
         st, .finished, 0, 0⟩ := by
  intro cmds
  induction cmds with
  | nil => intro i st _ _; rfl
  | cons cmd rest ih =>
    intro i st hne hsucc
    match cmd, hne cmd (by simp) with
    | f :: t, _ =>
      have h0 : oracle i = .success := by
        have := hsucc 0 (by simp)
        simpa using this
      have hrest := ih (i + 1) st
        (fun c hc => hne c (by simp [hc]))
        (fun k hk => by
          have := hsucc (k + 1) (by simp; omega)
          rwa [show i + (k + 1) = i + 1 + k by omega] at this)
      simp only [tox_runtest_loop, h0, hrest, List.map_cons, procList]

/-- Helper: with `ignore_outcome` set, no interrupt in range and
non-empty commands, the loop finishes, calls `_pcall` once per command,
and the status either keeps its incoming value or reads
`"ignored failed command"`; as soon as one invocation in range fails,
the status is `"ignored failed command"` and at least one warning was
logged. -/
theorem loop_ignore_outcome (oracle : Nat → PcallResult) (ignE : Bool)
    (exe : String) :
    ∀ (cmds : List (List String)) (i : Nat) (st : Option String),
    (∀ c ∈ cmds, c ≠ []) →
    (∀ k, k < cmds.length → oracle (i + k) ≠ .keyboardInterrupt) →
    ((tox_runtest_loop oracle true ignE exe i cmds st).outcome = .finished
    ∧ (tox_runtest_loop oracle true ignE exe i cmds st).calls.length
        = cmds.length
    ∧ ((tox_runtest_loop oracle true ignE exe i cmds st).status = st
        ∨ (tox_runtest_loop oracle true ignE exe i cmds st).status
            = some "ignored failed command")
    ∧ ((∃ k, k < cmds.length ∧ oracle (i + k) = .invocationError) →
        (tox_runtest_loop oracle true ignE exe i cmds st).status
            = some "ignored failed command"
        ∧ 1 ≤ (tox_runtest_loop oracle true ignE exe i cmds st).warnings)) := by
  intro cmds
  induction cmds with
  | nil =>
    intro i st _ _
    refine ⟨rfl, rfl, Or.inl rfl, fun h => ?_⟩
    obtain ⟨k, hk, _⟩ := h
    simp at hk
  | cons cmd rest ih =>
    intro i st hne hnokb
    match cmd, hne cmd (by simp) with
    | f :: t, _ =>
      have hne' : ∀ c ∈ rest, c ≠ [] := fun c hc => hne c (by simp [hc])
      have hnokb' : ∀ k, k < rest.length →
          oracle (i + 1 + k) ≠ .keyboardInterrupt := fun k hk => by
        have := hnokb (k + 1) (by simp; omega)
        rwa [show i + (k + 1) = i + 1 + k by omega] at this
      rcases h0 : oracle i with _ | _ | _
      · -- success at the head
        have hrest := ih (i + 1) st hne' hnokb'
        simp only [tox_runtest_loop, h0]
        refine ⟨hrest.1, by simp [hrest.2.1], hrest.2.2.1, fun h => ?_⟩
        obtain ⟨k, hk, hfail⟩ := h
        match k with
        | 0 => rw [Nat.add_zero] at hfail; rw [h0] at hfail; cases hfail
        | k + 1 =>
          have hfail' : oracle (i + 1 + k) = .invocationError := by
            rwa [show i + (k + 1) = i + 1 + k by omega] at hfail
          exact hrest.2.2.2 ⟨k, by simp at hk; omega, hfail'⟩
      · -- invocation error at the head, outcome ignored
        have hrest := ih (i + 1) (some "ignored failed command") hne' hnokb'
        have hst : (tox_runtest_loop oracle true ignE exe (i + 1) rest
            (some "ignored failed command")).status
            = some "ignored failed command" := by
          rcases hrest.2.2.1 with h | h <;> exact h
        simp only [tox_runtest_loop, h0, if_pos rfl]
        refine ⟨hrest.1, by simp [hrest.2.1], Or.inr hst,
          fun _ => ⟨hst, ?_⟩⟩
        simp
      · -- interrupt is excluded by hypothesis
        exact absurd h0 (by simpa using hnokb 0 (by simp))

/-- C4: with the environment's ignore-outcome flag set, when the
`_pcall` for the command at index `i` of an `N`-command list raises an
invocation error (and no invocation raises `KeyboardInterrupt`, all
commands being non-empty), the loop still finishes, every one of the
`N` commands is executed, the final status is
`"ignored failed command"`, and at least one warning was logged. -/
theorem tox_runtest_ignore_outcome_continues
    (oracle : Nat → PcallResult) (ignE : Bool) (exe : String)
    (cmds : List (List String)) (st : Option String) (i : Nat)
    (hne : ∀ c ∈ cmds, c ≠ [])
    (hnokb : ∀ k, k < cmds.length → oracle k ≠ .keyboardInterrupt)
    (hi : i < cmds.length)
    (hfail : oracle i = .invocationError) :
    (tox_runtest_loop oracle true ignE exe 0 cmds st).outcome = .finished
    ∧ (tox_runtest_loop oracle true ignE exe 0 cmds st).calls.length
        = cmds.length
    ∧ (tox_runtest_loop oracle true ignE exe 0 cmds st).status
        = some "ignored failed command"
    ∧ 1 ≤ (tox_runtest_loop oracle true ignE exe 0 cmds st).warnings := by
  have h := loop_ignore_outcome oracle ignE exe cmds 0 st hne
    (fun k hk => by simpa using hnokb k hk)
  have h4 := h.2.2.2 ⟨i, hi, by simpa using hfail⟩
  exact ⟨h.1, h.2.1, h4.1, h4.2⟩

/-- C4 witness: three commands, the middle one failing, with
ignore-outcome set: all three are executed, the status reads
`"ignored failed command"`, and a warning was logged. -/
theorem tox_runtest_ignore_outcome_continues_app :
    (tox_runtest_loop
        (fun j => if j = 1 then .invocationError else .success)
        true false "py" 0 [["a"], ["b"], ["c"]] none).outcome = .finished
    ∧ (tox_runtest_loop
        (fun j => if j = 1 then .invocationError else .success)
        true false "py" 0 [["a"], ["b"], ["c"]] none).calls.length = 3
    ∧ (tox_runtest_loop
        (fun j => if j = 1 then .invocationError else .success)
        true false "py" 0 [["a"], ["b"], ["c"]] none).status
        = some "ignored failed command"
    ∧ 1 ≤ (tox_runtest_loop
        (fun j => if j = 1 then .invocationError else .success)
        true false "py" 0 [["a"], ["b"], ["c"]] none).warnings := by
  have h := tox_runtest_ignore_outcome_continues
    (fun j => if j = 1 then .invocationError else .success)
    false "py" [["a"], ["b"], ["c"]] none 1
    (by decide)
    (fun k _ => by rcases Nat.decEq k 1 with h | h <;> simp [h])
    (by decide) (by decide)
  exact h

/-- Helper: with `ignore_outcome` clear and exactly the invocation at
index `ifail` failing (every other one succeeding), the loop finishes
with status `"commands failed"` and one error logged; with
`ignore_errors` set it still executes every command, otherwise it stops
right after the failing one. -/
theorem loop_commands_failed (oracle : Nat → PcallResult) (ignE : Bool)
    (exe : String) (ifail : Nat) :
    ∀ (cmds : List (List String)) (i : Nat) (st : Option String),
    (∀ c ∈ cmds, c ≠ []) →
    (∀ j, j ≠ ifail → oracle j = .success) →
    oracle ifail = .invocationError →
    i ≤ ifail → ifail < i + cmds.length →
    ((tox_runtest_loop oracle false ignE exe i cmds st).outcome = .finished
    ∧ (tox_runtest_loop oracle false ignE exe i cmds st).status
        = some "commands failed"
    ∧ (tox_runtest_loop oracle false ignE exe i cmds st).errors = 1
    ∧ (tox_runtest_loop oracle false ignE exe i cmds st).calls.length
        = if ignE then cmds.length else ifail - i + 1) := by
  intro cmds
  induction cmds with
  | nil =>
    intro i st _ _ _ hle hlt
    simp at hlt
    omega
  | cons cmd rest ih =>
    intro i st hne hsucc hfail hle hlt
    match cmd, hne cmd (by simp) with
    | f :: t, _ =>
      have hne' : ∀ c ∈ rest, c ≠ [] := fun c hc => hne c (by simp [hc])
      rcases Nat.eq_or_lt_of_le hle with heq | hgt
      · -- the head command is the failing one
        subst heq
        rcases hE : ignE with _ | _
        · -- ignore_errors is clear: break after the failure
          subst hE
          simp [tox_runtest_loop, hfail]
        · -- ignore_errors is set: run the remaining commands
          subst hE
          have hrest := loop_all_success oracle false true exe rest (i + 1)
            (some "commands failed") hne'
            (fun k _ => hsucc (i + 1 + k) (by omega))
          simp [tox_runtest_loop, hfail, hrest]
      · -- the head command succeeds; the failure is further on
        have h0 : oracle i = .success := hsucc i (by omega)
        have hrest := ih (i + 1) st hne' hsucc hfail (by omega)
          (by simp at hlt; omega)
        simp only [tox_runtest_loop, h0]
        refine ⟨hrest.1, hrest.2.1, hrest.2.2.1, ?_⟩
        have := hrest.2.2.2
        rcases ignE <;> simp_all <;> omega

/-- C5: with ignore-outcome clear, when the `_pcall` for the command at
index `i` raises an invocation error and every other invocation
succeeds (all commands non-empty), an error is logged and the status
becomes `"commands failed"`; with ignore-errors clear only the commands
up to and including index `i` are executed, with ignore-errors set all
`N` commands are executed. -/
theorem tox_runtest_commands_failed
    (oracle : Nat → PcallResult) (ignE : Bool) (exe : String)
    (cmds : List (List String)) (st : Option String) (i : Nat)
    (hne : ∀ c ∈ cmds, c ≠ [])
    (hsucc : ∀ j, j ≠ i → oracle j = .success)
    (hfail : oracle i = .invocationError)
    (hi : i < cmds.length) :
    (tox_runtest_loop oracle false ignE exe 0 cmds st).outcome = .finished
    ∧ (tox_runtest_loop oracle false ignE exe 0 cmds st).status
        = some "commands failed"
    ∧ (tox_runtest_loop oracle false ignE exe 0 cmds st).errors = 1
    ∧ (tox_runtest_loop oracle false ignE exe 0 cmds st).calls.length
        = if ignE then cmds.length else i + 1 := by
  have h := loop_commands_failed oracle ignE exe i cmds 0 st hne hsucc hfail
    (Nat.zero_le i) (by omega)
  refine ⟨h.1, h.2.1, h.2.2.1, ?_⟩
  rcases ignE <;> simpa using h.2.2.2

/-- C5 witness: three commands with the middle one failing.  With both
flags clear, only commands 0 and 1 run and the status is
`"commands failed"`; with ignore-errors set, all three run and the
status is the same. -/
theorem tox_runtest_commands_failed_app :
    ((tox_runtest_loop
        (fun j => if j = 1 then .invocationError else .success)
        false false "py" 0 [["a"], ["b"], ["c"]] none).status
        = some "commands failed"
    ∧ (tox_runtest_loop
        (fun j => if j = 1 then .invocationError else .success)
        false false "py" 0 [["a"], ["b"], ["c"]] none).calls.length = 2)
    ∧ ((tox_runtest_loop
        (fun j => if j = 1 then .invocationError else .success)
        false true "py" 0 [["a"], ["b"], ["c"]] none).status
        = some "commands failed"
    ∧ (tox_runtest_loop
        (fun j => if j = 1 then .invocationError else .success)
        false true "py" 0 [["a"], ["b"], ["c"]] none).calls.length = 3) := by
  have hsucc : ∀ j, j ≠ 1 →
      (fun j => if j = 1 then PcallResult.invocationError
        else PcallResult.success) j = PcallResult.success :=
    fun j hj => by simp [hj]
  have h1 := tox_runtest_commands_failed
    (fun j => if j = 1 then .invocationError else .success)
    false "py" [["a"], ["b"], ["c"]] none 1 (by decide) hsucc
    (by decide) (by decide)
  have h2 := tox_runtest_commands_failed
    (fun j => if j = 1 then .invocationError else .success)
    true "py" [["a"], ["b"], ["c"]] none 1 (by decide) hsucc
    (by decide) (by decide)
  exact ⟨⟨h1.2.1, by simpa using h1.2.2.2⟩, ⟨h2.2.1, by simpa using h2.2.2.2⟩⟩

/-- Helper: when the invocations before index `ikb` succeed and the one
at `ikb` raises `KeyboardInterrupt` (commands non-empty, `ikb` in
range), the loop stops at `ikb` with the interrupt propagating, status
`"keyboardinterrupt"`, and one error logged — whatever the two ignore
flags are. -/
theorem loop_keyboard_interrupt (oracle : Nat → PcallResult)
    (ignO ignE : Bool) (exe : String) (ikb : Nat) :
    ∀ (cmds : List (List String)) (i : Nat) (st : Option String),
    (∀ c ∈ cmds, c ≠ []) →
    (∀ j, j < ikb → oracle j = .success) →
    oracle ikb = .keyboardInterrupt →
    i ≤ ikb → ikb < i + cmds.length →
    ((tox_runtest_loop oracle ignO ignE exe i cmds st).outcome
        = .interrupted
    ∧ (tox_runtest_loop oracle ignO ignE exe i cmds st).status
        = some "keyboardinterrupt"
    ∧ (tox_runtest_loop oracle ignO ignE exe i cmds st).errors = 1
    ∧ (tox_runtest_loop oracle ignO ignE exe i cmds st).calls.length
        = ikb - i + 1) := by
  intro cmds
  induction cmds with
  | nil =>
    intro i st _ _ _ hle hlt
    simp at hlt
    omega
  | cons cmd rest ih =>
    intro i st hne hsucc hkb hle hlt
    match cmd, hne cmd (by simp) with
    | f :: t, _ =>
      have hne' : ∀ c ∈ rest, c ≠ [] := fun c hc => hne c (by simp [hc])
      rcases Nat.eq_or_lt_of_le hle with heq | hgt
      · -- the head command is the interrupted one
        subst heq
        simp [tox_runtest_loop, hkb]
      · -- the head command succeeds; the interrupt is further on
        have h0 : oracle i = .success := hsucc i hgt
        have hrest := ih (i + 1) st hne' hsucc hkb (by omega)
          (by simp at hlt; omega)
        simp only [tox_runtest_loop, h0]
        refine ⟨hrest.1, hrest.2.1, hrest.2.2.1, ?_⟩
        have := hrest.2.2.2
        simp_all
        omega

/-- C6: when a `KeyboardInterrupt` occurs during the `_pcall` for the
command at index `i` (the earlier invocations having succeeded, all
commands non-empty), the status is set to `"keyboardinterrupt"`, it is
logged as an error, the interrupt propagates out of the loop
(`.interrupted` outcome), and no later command runs — for every index
and independently of the ignore-outcome and ignore-errors flags. -/
theorem tox_runtest_keyboard_interrupt
    (oracle : Nat → PcallResult) (ignO ignE : Bool) (exe : String)
    (cmds : List (List String)) (st : Option String) (i : Nat)
    (hne : ∀ c ∈ cmds, c ≠ [])
    (hsucc : ∀ j, j < i → oracle j = .success)
    (hkb : oracle i = .keyboardInterrupt)
    (hi : i < cmds.length) :
    (tox_runtest_loop oracle ignO ignE exe 0 cmds st).outcome
        = .interrupted
    ∧ (tox_runtest_loop oracle ignO ignE exe 0 cmds st).status
        = some "keyboardinterrupt"
    ∧ (tox_runtest_loop oracle ignO ignE exe 0 cmds st).errors = 1
    ∧ (tox_runtest_loop oracle ignO ignE exe 0 cmds st).calls.length
        = i + 1 := by
  have h := loop_keyboard_interrupt oracle ignO ignE exe i cmds 0 st hne
    hsucc hkb (Nat.zero_le i) (by omega)
  exact ⟨h.1, h.2.1, h.2.2.1, by simpa using h.2.2.2⟩

/-- C6 witness: three commands with an interrupt at index 1 and both
ignore flags set: the loop is interrupted after two calls with status
`"keyboardinterrupt"` and one error logged. -/
theorem tox_runtest_keyboard_interrupt_app :
    (tox_runtest_loop
        (fun j => if j = 1 then .keyboardInterrupt else .success)
        true true "py" 0 [["a"], ["b"], ["c"]] none).outcome = .interrupted
    ∧ (tox_runtest_loop
        (fun j => if j = 1 then .keyboardInterrupt else .success)
        true true "py" 0 [["a"], ["b"], ["c"]] none).status
        = some "keyboardinterrupt"
    ∧ (tox_runtest_loop
        (fun j => if j = 1 then .keyboardInterrupt else .success)
        true true "py" 0 [["a"], ["b"], ["c"]] none).errors = 1
    ∧ (tox_runtest_loop
        (fun j => if j = 1 then .keyboardInterrupt else .success)
        true true "py" 0 [["a"], ["b"], ["c"]] none).calls.length = 2 :=
  tox_runtest_keyboard_interrupt
    (fun j => if j = 1 then .keyboardInterrupt else .success)
    true true "py" [["a"], ["b"], ["c"]] none 1
    (by decide)
    (fun j hj => by interval_cases j <;> decide)
    (by decide) (by decide)

/-- C8 (counterexample): the stored command list is not left unchanged
by the `tox_runtest` loop.  With the single command `["-", "x"]` and a
succeeding invocation, `del argv[0]` mutates the stored inner list in
place, so after the hook the descriptor holds `[["x"]]` instead of
`[["-", "x"]]`. -/
theorem tox_runtest_mutates_commands :
    ¬ ((tox_runtest_loop (fun _ => .success) false false "py" 0
        [["-", "x"]] none).stored = [["-", "x"]]) := by
  intro h
  simp [tox_runtest_loop, processCommand, startsWithDash] at h

/-- C8 (amended): across a `tox_runtest` loop in which every invocation
succeeds (commands non-empty), the status field keeps its prior value
and nothing is logged, but the stored command argument-vectors are
mutated in place: each stored command becomes its dash-processed form,
and a command whose first token does not start with a dash is stored
unchanged. -/
theorem tox_runtest_writes_status_and_mutates_dashes
    (oracle : Nat → PcallResult) (ignO ignE : Bool) (exe : String)
    (cmds : List (List String)) (st : Option String)
    (hne : ∀ c ∈ cmds, c ≠ [])
    (hsucc : ∀ k, k < cmds.length → oracle k = .success) :
    (tox_runtest_loop oracle ignO ignE exe 0 cmds st).status = st
    ∧ (tox_runtest_loop oracle ignO ignE exe 0 cmds st).warnings = 0
    ∧ (tox_runtest_loop oracle ignO ignE exe 0 cmds st).errors = 0
    ∧ (tox_runtest_loop oracle ignO ignE exe 0 cmds st).stored
        = cmds.map procList
    ∧ (∀ f t, startsWithDash f = false → procList (f :: t) = f :: t) := by
  have h := loop_all_success oracle ignO ignE exe cmds 0 st hne
    (fun k hk => by simpa using hsucc k hk)
  rw [h]
  refine ⟨rfl, rfl, rfl, rfl, fun f t hf => ?_⟩
  simp [procList, processCommand, hf]

/-- C8 witness: two succeeding commands, one starting with dashes and
one not: the status and logs are untouched, the stored list afterwards
has the first command dash-stripped and the second unchanged. -/
theorem tox_runtest_writes_status_and_mutates_dashes_app :
    (tox_runtest_loop (fun _ => .success) false false "py" 0
        [["--v", "x"], ["pytest"]] none).status = none
    ∧ (tox_runtest_loop (fun _ => .success) false false "py" 0
        [["--v", "x"], ["pytest"]] none).warnings = 0
    ∧ (tox_runtest_loop (fun _ => .success) false false "py" 0
        [["--v", "x"], ["pytest"]] none).errors = 0
    ∧ (tox_runtest_loop (fun _ => .success) false false "py" 0
        [["--v", "x"], ["pytest"]] none).stored
        = [["--v", "x"], ["pytest"]].map procList
    ∧ procList ["pytest"] = ["pytest"] := by
  have h := tox_runtest_writes_status_and_mutates_dashes
    (fun _ => .success) false false "py" [["--v", "x"], ["pytest"]] none
    (by decide) (fun k _ => rfl)
  exact ⟨h.1, h.2.1, h.2.2.1, h.2.2.2.1, h.2.2.2.2 "pytest" [] (by decide)⟩

/-- Effect of `tox_testenv_create` (plugin.py lines 72-92) on the
process environment: `_init_pipenv_environ` first, then the overlay
scope around the single `_pcall`, whose outcome is `res`. -/
def tox_testenv_create_env (venvPath pipfilePath : String)
    (res : BodyResult) (env : Environ) : Environ :=
  wrap_pipenv_environment venvPath pipfilePath (init_pipenv_environ env) res

/-- Effect of `tox_testenv_install_deps` (plugin.py lines 95-115) on the
process environment: identical shape to `tox_testenv_create`. -/
def tox_testenv_install_deps_env (venvPath pipfilePath : String)
    (res : BodyResult) (env : Environ) : Environ :=
  wrap_pipenv_environment venvPath pipfilePath (init_pipenv_environ env) res

/-- Effect of `tox_runtest` (plugin.py lines 118-173) on the process
environment: `_init_pipenv_environ` first, then the overlay scope around
the command loop; the restoration code runs only when the loop finishes
without a propagating exception. -/
def tox_runtest_env (oracle : Nat → PcallResult) (ignO ignE : Bool)
    (exe : String) (cmds : List (List String)) (st : Option String)
    (venvPath pipfilePath : String) (env : Environ) : Environ :=
  wrap_pipenv_environment venvPath pipfilePath (init_pipenv_environ env)
    (match (tox_runtest_loop oracle ignO ignE exe 0 cmds st).outcome with
      | .finished => .ok
      | .interrupted => .exc
      | .crashed => .exc)

/-- Effect of `tox_runenvreport` (plugin.py lines 176-190) on the
process environment: identical shape to `tox_testenv_create`. -/
def tox_runenvreport_env (venvPath pipfilePath : String)
    (res : BodyResult) (env : Environ) : Environ :=
  wrap_pipenv_environment venvPath pipfilePath (init_pipenv_environ env) res

/-- Helper: the overlay scope never touches the three global pipenv
flags, so after `_init_pipenv_environ` they survive any scope exit. -/
theorem wrap_scope_keeps_flags (venvPath pipfilePath : String)
    (env : Environ) (res : BodyResult) :
    (wrap_pipenv_environment venvPath pipfilePath (init_pipenv_environ env)
        res).PIPENV_ACTIVE = some "1"
    ∧ (wrap_pipenv_environment venvPath pipfilePath (init_pipenv_environ env)
        res).PIPENV_IGNORE_VIRTUALENVS = some "1"
    ∧ (wrap_pipenv_environment venvPath pipfilePath (init_pipenv_environ env)
        res).PIPENV_YES = some "1" := by
  rcases res with _ | _
  · refine ⟨?_, ?_, ?_⟩ <;>
    · simp only [wrap_pipenv_environment, wrapEnter, wrapExit,
        init_pipenv_environ]
      rcases h1 : pyTruthy env.PIPENV_PIPFILE <;>
        rcases h2 : pyTruthy env.PIPENV_VIRTUALENV <;>
        rcases h3 : pyTruthy env.VIRTUAL_ENV <;>
        simp [h1, h2, h3]
  · exact ⟨rfl, rfl, rfl⟩

/-- C9: each of the four lifecycle hooks begins with
`_init_pipenv_environ`, which sets `PIPENV_ACTIVE`,
`PIPENV_IGNORE_VIRTUALENVS` and `PIPENV_YES` to `"1"`, and nothing in
the plugin ever unsets or restores them; so after any hook — whatever
the outcome of the wrapped body or of the command loop — all three
variables hold `"1"`. -/
theorem hooks_leave_global_flags_set (venvPath pipfilePath exe : String)
    (res : BodyResult) (env : Environ) (oracle : Nat → PcallResult)
    (ignO ignE : Bool) (cmds : List (List String)) (st : Option String) :
    ((tox_testenv_create_env venvPath pipfilePath res env).PIPENV_ACTIVE
        = some "1"
    ∧ (tox_testenv_create_env venvPath pipfilePath res
        env).PIPENV_IGNORE_VIRTUALENVS = some "1"
    ∧ (tox_testenv_create_env venvPath pipfilePath res env).PIPENV_YES
        = some "1")
    ∧ ((tox_testenv_install_deps_env venvPath pipfilePath res
        env).PIPENV_ACTIVE = some "1"
    ∧ (tox_testenv_install_deps_env venvPath pipfilePath res
        env).PIPENV_IGNORE_VIRTUALENVS = some "1"
    ∧ (tox_testenv_install_deps_env venvPath pipfilePath res
        env).PIPENV_YES = some "1")
    ∧ ((tox_runtest_env oracle ignO ignE exe cmds st venvPath pipfilePath
        env).PIPENV_ACTIVE = some "1"
    ∧ (tox_runtest_env oracle ignO ignE exe cmds st venvPath pipfilePath
        env).PIPENV_IGNORE_VIRTUALENVS = some "1"
    ∧ (tox_runtest_env oracle ignO ignE exe cmds st venvPath pipfilePath
        env).PIPENV_YES = some "1")
    ∧ ((tox_runenvreport_env venvPath pipfilePath res env).PIPENV_ACTIVE
        = some "1"
    ∧ (tox_runenvreport_env venvPath pipfilePath res
        env).PIPENV_IGNORE_VIRTUALENVS = some "1"
    ∧ (tox_runenvreport_env venvPath pipfilePath res env).PIPENV_YES
        = some "1") :=
  ⟨wrap_scope_keeps_flags venvPath pipfilePath env res,
   wrap_scope_keeps_flags venvPath pipfilePath env res,
   wrap_scope_keeps_flags venvPath pipfilePath env _,
   wrap_scope_keeps_flags venvPath pipfilePath env res⟩


/-- Python's `str.split` with the one-character separator `"\n"`
(plugin.py line 189), on the character list of the string: every
occurrence of the separator ends a part, empty parts included. -/
def splitNl : List Char → List (List Char)
  | [] => [[]]
  | c :: cs =>
    match splitNl cs with
    | [] => []
    | p :: ps => if c = '\n' then [] :: p :: ps else (c :: p) :: ps

/-- Joining parts back with a `'\n'` between consecutive parts. -/
def joinNl : List (List Char) → List Char
  | [] => []
  | [p] => p
  | p :: q :: ps => p ++ '\n' :: joinNl (q :: ps)

/-- Unfolding `splitNl` on a cons cell once the split of the tail is
known. -/
theorem splitNl_cons_eq (c : Char) (cs : List Char) (p : List Char)
    (ps : List (List Char)) (h : splitNl cs = p :: ps) :
    splitNl (c :: cs)
      = if c = '\n' then [] :: p :: ps else (c :: p) :: ps := by
  simp only [splitNl, h]

/-- `splitNl` always yields at least one part. -/
theorem splitNl_ne_nil : ∀ l : List Char, splitNl l ≠ [] := by
  intro l
  induction l with
  | nil => simp [splitNl]
  | cons c cs ih =>
    rcases h : splitNl cs with _ | ⟨p, ps⟩
    · exact absurd h ih
    · rw [splitNl_cons_eq c cs p ps h]
      split_ifs <;> simp

/-- Joining the parts of `splitNl` recovers the original characters. -/
theorem joinNl_splitNl : ∀ l : List Char, joinNl (splitNl l) = l := by
  intro l
  induction l with
  | nil => rfl
  | cons c cs ih =>
    rcases h : splitNl cs with _ | ⟨p, ps⟩
    · exact absurd h (splitNl_ne_nil cs)
    · rw [h] at ih
      rw [splitNl_cons_eq c cs p ps h]
      split_ifs with hc
      · subst hc
        simp only [joinNl]
        rw [List.nil_append, ih]
      · rcases ps with _ | ⟨q, ps⟩
        · simp only [joinNl] at ih ⊢
          rw [ih]
        · simp only [joinNl] at ih ⊢
          rw [List.cons_append, ih]

/-- No part produced by `splitNl` contains a newline. -/
theorem splitNl_no_newline :
    ∀ l : List Char, ∀ p ∈ splitNl l, '\n' ∉ p := by
  intro l
  induction l with
  | nil => simp [splitNl]
  | cons c cs ih =>
    intro p hp
    rcases h : splitNl cs with _ | ⟨q, qs⟩
    · exact absurd h (splitNl_ne_nil cs)
    · rw [h] at ih
      rw [splitNl_cons_eq c cs q qs h] at hp
      split_ifs at hp with hc
      · simp only [List.mem_cons] at hp
        rcases hp with hp | hp | hp
        · simp [hp]
        · subst hp
          exact ih p (by simp)
        · exact ih p (by simp [hp])
      · simp only [List.mem_cons] at hp
        rcases hp with hp | hp
        · subst hp
          intro hmem
          simp only [List.mem_cons] at hmem
          rcases hmem with hmem | hmem
          · exact hc hmem.symm
          · exact ih q (by simp) hmem
        · exact ih p (by simp [hp])

/-- A newline-free character list splits into the single part itself. -/
theorem splitNl_of_no_newline :
    ∀ l : List Char, '\n' ∉ l → splitNl l = [l] := by
  intro l
  induction l with
  | nil => intro _; rfl
  | cons c cs ih =>
    intro h
    have hc : ¬ c = '\n' := fun hcc => h (by simp [hcc])
    have hcs : '\n' ∉ cs := fun hm => h (by simp [hm])
    rw [splitNl_cons_eq c cs cs [] (ih hcs), if_neg hc]

/-- Splitting a newline-free prefix followed by a newline peels off the
prefix as the first part. -/
theorem splitNl_append (p rest : List Char) (hp : '\n' ∉ p) :
    splitNl (p ++ '\n' :: rest) = p :: splitNl rest := by
  induction p with
  | nil =>
    rcases h : splitNl rest with _ | ⟨q, qs⟩
    · exact absurd h (splitNl_ne_nil rest)
    · rw [List.nil_append, splitNl_cons_eq '\n' rest q qs h, if_pos rfl]
  | cons c cs ih =>
    have hc : ¬ c = '\n' := fun hcc => hp (by simp [hcc])
    have hcs : '\n' ∉ cs := fun hm => hp (by simp [hm])
    rw [List.cons_append,
      splitNl_cons_eq c (cs ++ '\n' :: rest) cs (splitNl rest) (ih hcs),
      if_neg hc]

/-- `splitNl` is a left inverse of `joinNl` on non-empty lists of
newline-free parts: the split is the unique such decomposition. -/
theorem splitNl_joinNl :
    ∀ ps : List (List Char), ps ≠ [] → (∀ p ∈ ps, '\n' ∉ p) →
    splitNl (joinNl ps) = ps := by
  intro ps
  induction ps with
  | nil => intro h _; exact absurd rfl h
  | cons p qs ih =>
    intro _ hfree
    match qs, ih with
    | [], _ => exact splitNl_of_no_newline p (hfree p (by simp))
    | q :: qs, ih =>
      have h1 : joinNl (p :: q :: qs) = p ++ '\n' :: joinNl (q :: qs) := rfl
      rw [h1, splitNl_append p _ (hfree p (by simp)),
        ih (by simp) (fun r hr => hfree r (by simp [hr]))]

/-- Appending a final newline appends one empty part to the split. -/
theorem splitNl_concat_newline :
    ∀ l : List Char, splitNl (l ++ ['\n']) = splitNl l ++ [[]] := by
  intro l
  induction l with
  | nil => rfl
  | cons c cs ih =>
    rcases h : splitNl cs with _ | ⟨q, qs⟩
    · exact absurd h (splitNl_ne_nil cs)
    · have ih' : splitNl (cs ++ ['\n']) = q :: (qs ++ [[]]) := by
        rw [ih, h, List.cons_append]
      rw [List.cons_append, splitNl_cons_eq c (cs ++ ['\n']) q (qs ++ [[]]) ih',
        splitNl_cons_eq c cs q qs h]
      split_ifs <;> simp

/-- The sequence of lines returned by `tox_runenvreport`
(plugin.py lines 187-190): the captured `_pcall` output split on
newline characters, `output.split("\n")` in the source. -/
def tox_runenvreport_output (output : String) : List String :=
  (splitNl output.data).map (fun p => String.mk p)

/-- C7: `tox_runenvreport` returns exactly the newline-split of the
captured output: joining the returned lines with `'\n'` recovers the
output, no returned line contains a newline, any other newline-free
decomposition joining to the output is the returned one (so the split
is exact and order-preserving), and a terminal newline produces a final
empty line. -/
theorem tox_runenvreport_output_spec (output : String) :
    joinNl ((tox_runenvreport_output output).map String.data)
      = output.data
    ∧ (∀ line ∈ tox_runenvreport_output output, '\n' ∉ line.data)
    ∧ (∀ parts : List String, parts ≠ [] →
        (∀ p ∈ parts, '\n' ∉ p.data) →
        joinNl (parts.map String.data) = output.data →
        parts = tox_runenvreport_output output)
    ∧ (output.data.getLast? = some '\n' →
        (tox_runenvreport_output output).getLast? = some "") := by
  have hcomp : (String.data ∘ fun p : List Char => String.mk p)
      = id := funext fun p => rfl
  have hdm : (tox_runenvreport_output output).map String.data
      = splitNl output.data := by
    rw [tox_runenvreport_output, List.map_map, hcomp, List.map_id]
  refine ⟨?_, ?_, ?_, ?_⟩
  · rw [hdm, joinNl_splitNl]
  · intro line hline
    simp only [tox_runenvreport_output, List.mem_map] at hline
    obtain ⟨p, hp, hmk⟩ := hline
    have hld : line.data = p := by rw [← hmk]
    rw [hld]
    exact splitNl_no_newline output.data p hp
  · intro parts hne hfree hjoin
    have h1 : splitNl (joinNl (parts.map String.data))
        = parts.map String.data :=
      splitNl_joinNl (parts.map String.data) (by simpa using hne)
        (fun p hp => by
          simp only [List.mem_map] at hp
          obtain ⟨s, hs, hd⟩ := hp
          rw [← hd]
          exact hfree s hs)
    rw [hjoin] at h1
    have hcomp2 : ((fun p : List Char => String.mk p) ∘ String.data)
        = id := funext fun s => rfl
    rw [tox_runenvreport_output, h1, List.map_map, hcomp2, List.map_id]
  · intro hlast
    have hne : output.data ≠ [] := by
      intro h
      rw [h] at hlast
      simp at hlast
    have hg : output.data.getLast hne = '\n' := by
      have hq := List.getLast?_eq_getLast output.data hne
      rw [hq] at hlast
      exact Option.some.inj hlast
    have hdecomp : output.data.dropLast ++ ['\n'] = output.data := by
      have := List.dropLast_append_getLast hne
      rw [hg] at this
      exact this
    have h3 : splitNl output.data
        = splitNl output.data.dropLast ++ [[]] := by
      conv_lhs => rw [← hdecomp]
      exact splitNl_concat_newline _
    rw [tox_runenvreport_output, h3, List.map_append]
    simp

/-- C7 witness: for the captured output `"a\nb\n"` the returned lines
are `["a", "b", ""]` — uniqueness applied at that decomposition — and
the terminal newline yields the final empty line. -/
theorem tox_runenvreport_output_spec_app :
    (["a", "b", ""] : List String)
        = tox_runenvreport_output "a\nb\n"
    ∧ (tox_runenvreport_output "a\nb\n").getLast? = some "" := by
  have h := tox_runenvreport_output_spec "a\nb\n"
  refine ⟨h.2.2.1 ["a", "b", ""] (by simp) ?_ (by decide), h.2.2.2 (by decide)⟩
  intro p hp
  simp only [List.mem_cons, List.not_mem_nil, or_false] at hp
  rcases hp with hp | hp | hp <;> subst hp <;> decide
